import Mathlib

/-!
Verification development for the F UI composition framework
(src/js/F/F.Component.js): a shallow embedding of the option-merging
utility, the Component lifecycle / sub-component tree state machine,
the CollectionComponent load-gated show logic, and the event
bubbling / relay registration mechanics, together with theorems about
the behaviours documented for them.
-/

namespace FSpec

/-! ## Option mappings and `_.extend`

JavaScript option objects are modelled as association lists from string
keys to values.  `_.extend(dest, src)` assigns every own key of `src`
into `dest` in order; `setKey` is a single such assignment (overwriting
an existing binding in place, appending otherwise, matching JS object
key-update semantics which preserve the original insertion position of
an existing key). -/

abbrev OptionSet (α : Type) := List (String × α)

/-- One JS object key assignment `dest[k] = v`: overwrite in place if the
key is present, append otherwise. -/
def setKey {α : Type} (os : OptionSet α) (k : String) (v : α) : OptionSet α :=
  if os.any (fun p => p.1 = k) then
    os.map (fun p => if p.1 = k then (k, v) else p)
  else
    os ++ [(k, v)]

/-- `_.extend(dest, src)`: copy each binding of `src` into `dest`, in order. -/
def extendWith {α : Type} (dest src : OptionSet α) : OptionSet α :=
  src.foldl (fun d p => setKey d p.1 p.2) dest

/-- Property read `os[k]`: the first binding of `k` (JS objects have unique
keys, so first and last coincide for real objects). -/
def lup {α : Type} (os : OptionSet α) (k : String) : Option α :=
  (os.find? (fun p => p.1 = k)).map (fun p => p.2)

/-- The last binding of `k` in a (possibly duplicated) binding list: the
value a JS object built from these assignments in order would hold at `k`. -/
def lupLast {α : Type} (os : OptionSet α) (k : String) : Option α :=
  (os.reverse.find? (fun p => p.1 = k)).map (fun p => p.2)

/-- `mergeOptions` (F.Component.js lines 423–440): the per-class `options`
declarations are collected walking the prototype chain and `unshift`ed,
so they stand base-first; a fresh `{}` is unshifted in front and
`_.extend` folds them left to right, derived entries overwriting base
entries. -/
def mergeOptions {α : Type} (optionSets : List (OptionSet α)) : OptionSet α :=
  optionSets.foldl extendWith []

/-- Keys of an option mapping are pairwise distinct (true of every real JS
object and preserved by all our operations). -/
def KeysNodup {α : Type} (os : OptionSet α) : Prop :=
  (os.map (fun p => p.1)).Nodup

/-! ## Component lifecycle (F.Component.js lines 154–399)

The runtime state of one component, as far as the lifecycle operations
touch it.  `hasView`/`hasEl` model the presence of `this.view` and
`this.view.el`; `hasSetup`/`hasTeardown` model whether the optional
`setup`/`teardown` hooks are defined (`typeof this.setup === 'function'`
checks in the source).  `setupCount`/`teardownCount` are ghost counters
recording how many times the hooks have been invoked. -/

structure Child where
  name : String
  visible : Bool
  isSetup : Bool
  overlay : Bool
  hasView : Bool
  hasEl : Bool
  hasSetup : Bool
  hasTeardown : Bool
  setupCount : Nat
  teardownCount : Nat
deriving Repr, DecidableEq

/-- The component-local tail of `show` (lines 273–284): `view.show()` is
display-only; `setup` runs when a view exists, `isSetup` is unset and a
`setup` hook is defined, after which `isSetup` is set; `visible` is set
last, in every case. -/
def Child.showSelf (c : Child) : Child :=
  if c.hasView && (!c.isSetup && c.hasSetup) then
    { c with isSetup := true, setupCount := c.setupCount + 1, visible := true }
  else
    { c with visible := true }

/-- Result of `hide` (lines 294–325): `ret = none` encodes the early
`return false` taken when the component is already hidden; otherwise the
updated component is returned (`this`, chainable).  `emittedHidden`
records whether a `component:hidden` event was triggered. -/
structure HideResult where
  ret : Option Child
  state : Child
  emittedHidden : Bool
deriving Repr, DecidableEq

/-- `hide(options)`: early-out returning `false` when not visible;
otherwise hide the view, trigger `component:hidden` unless silenced, run
`teardown` (unsetting `isSetup`) when `isSetup` and a `teardown` hook is
defined, and unset `visible`. -/
def Child.hide (c : Child) (silent : Bool) : HideResult :=
  if c.visible = false then
    ⟨none, c, false⟩
  else
    let runTeardown := c.isSetup && c.hasTeardown
    let c' := { c with
      isSetup := if runTeardown then false else c.isSetup,
      teardownCount := if runTeardown then c.teardownCount + 1 else c.teardownCount,
      visible := false }
    ⟨some c', c', !silent⟩

/-- The state transition of a plain (non-silent) `hide()` call. -/
def Child.hideSelf (c : Child) : Child :=
  (c.hide false).state

/-- A parent component together with its sub-component registry.  The
parent's own flags are carried so that `_handleSubComponentShown`'s
trailing `this.show()` (the upward visibility propagation) is part of the
model; a root parent has no listeners of its own, so its `show` only
touches these flags. -/
structure ParentState where
  singly : Bool
  children : List Child
  currentSubComponent : Option String
  parentVisible : Bool
  parentIsSetup : Bool
  parentHasView : Bool
  parentHasSetup : Bool
deriving Repr, DecidableEq

/-- Apply `f` to the registered child(ren) carrying name `n`. -/
def mapNamed (cs : List Child) (n : String) (f : Child → Child) : List Child :=
  cs.map (fun c => if c.name = n then f c else c)

/-- `hideAllSubComponents(except)` (lines 370–379): iterate the registry,
skipping names in the exception list (`~except.indexOf(componentName)`),
calling `hide()` on each remaining child. -/
def hideAllSubComponents (s : ParentState) (except : List String) : ParentState :=
  { s with children :=
      s.children.map (fun c => if except.any (fun e => e = c.name) then c else c.hideSelf) }

/-- The parent's own `show()` as invoked from `_handleSubComponentShown`:
for a root parent the `component:shown` trigger reaches no listener, so
only the view/setup/visible tail acts, on the parent's own flags. -/
def parentShowSelf (s : ParentState) : ParentState :=
  { s with
    parentIsSetup :=
      if s.parentHasView && (!s.parentIsSetup && s.parentHasSetup) then true
      else s.parentIsSetup,
    parentVisible := true }

/-- `_handleSubComponentShown(evt)` (lines 223–244): look the announcing
child up in the registry; in singly mode, for a non-overlay child, hide
every other child and record the new `currentSubComponent`; then emit
`subComponent:shown` and call `show()` on the parent itself. -/
def handleSubComponentShown (s : ParentState) (n : String) : ParentState :=
  match s.children.find? (fun c => c.name = n) with
  | none => s
  | some newComponent =>
    let s1 :=
      if s.singly && !newComponent.overlay then
        { (hideAllSubComponents s [n]) with currentSubComponent := some n }
      else s
    parentShowSelf s1

/-- A registered child's `show(options)` (lines 253–287): unless silenced,
`component:shown` is triggered first, running the parent's standing
`_handleSubComponentShown` subscription; only then does the child run its
own view/setup/visible tail. -/
def childShow (s : ParentState) (n : String) (silent : Bool) : ParentState :=
  if s.children.any (fun c => c.name = n) then
    let s1 := if silent then s else handleSubComponentShown s n
    { s1 with children := mapNamed s1.children n Child.showSelf }
  else s

/-- A registered child's `hide()`: the parent holds no subscription to
`component:hidden`, so only the child's own state changes. -/
def childHide (s : ParentState) (n : String) : ParentState :=
  { s with children := mapNamed s.children n Child.hideSelf }

/-- `this[componentName] = this.components[componentName] = component`:
JS object key assignment, overwriting in place when the name is taken. -/
def registryInsert (cs : List Child) (c : Child) : List Child :=
  if cs.any (fun d => d.name = c.name) then
    cs.map (fun d => if d.name = c.name then c else d)
  else cs ++ [c]

/-- `addComponent(component, componentName)` (lines 154–195): store the
child under its name, then, when it has a view with an element and its
`visible` option is true, call `show({silent: true})` on it (otherwise
only the DOM element is hidden, which does not touch `options.visible`);
finally set the parent back-reference and subscribe to `component:shown`
(the subscription is implicit in `childShow`). -/
def addComponent (s : ParentState) (c : Child) : ParentState :=
  let s1 := { s with children := registryInsert s.children c }
  if c.hasView && c.hasEl && c.visible then childShow s1 c.name true else s1

/-- Number of visible non-overlay children. -/
def countVisibleNonOverlay (s : ParentState) : Nat :=
  (s.children.filter (fun c => c.visible && !c.overlay)).length

/-- A fresh parent: empty registry, nothing shown yet. -/
def initialParent (singly : Bool) : ParentState :=
  { singly := singly, children := [], currentSubComponent := none,
    parentVisible := false, parentIsSetup := false,
    parentHasView := false, parentHasSetup := false }

/-- One interaction with the component tree: a `show` (possibly silent),
a `hide`, or an `addComponent` of a fresh child. -/
inductive Step : ParentState → ParentState → Prop
  | showStep (s : ParentState) (n : String) (silent : Bool) : Step s (childShow s n silent)
  | hideStep (s : ParentState) (n : String) : Step s (childHide s n)
  | addStep (s : ParentState) (c : Child) : Step s (addComponent s c)

/-- States reachable from `init` by any interleaving of the operations. -/
inductive Reachable (init : ParentState) : ParentState → Prop
  | refl : Reachable init init
  | step {s t : ParentState} : Reachable init s → Step s t → Reachable init t

/-- The restricted interactions of the amended singly-mode invariant:
every `show` is non-silent and every added child is hidden at the time it
is added. -/
inductive TameStep : ParentState → ParentState → Prop
  | showStep (s : ParentState) (n : String) : TameStep s (childShow s n false)
  | hideStep (s : ParentState) (n : String) : TameStep s (childHide s n)
  | addStep (s : ParentState) (c : Child) (h : c.visible = false) : TameStep s (addComponent s c)

/-- States reachable from `init` using only restricted interactions. -/
inductive TameReachable (init : ParentState) : ParentState → Prop
  | refl : TameReachable init init
  | step {s t : ParentState} : TameReachable init s → TameStep s t → TameReachable init t

/-- Pairwise distinct registry names. -/
def NamesNodup (s : ParentState) : Prop :=
  (s.children.map (fun c => c.name)).Nodup

/-- The visibility flag of the child registered under `n`. -/
def visibleOf (s : ParentState) (n : String) : Option Bool :=
  (s.children.find? (fun c => c.name = n)).map (fun c => c.visible)

/-! ## CollectionComponent (F.CollectionComponent source)

The load-gated show logic.  `pending` is the queue of outstanding
asynchronous fetches, each carrying the `data` parameters it was issued
with and the success callback closed over at `load` time; `fireSuccess`
is one fetch's success callback running on a later event-loop turn.
`loadCount` is a ghost counter of issued fetches.  Parameter values are
modelled as strings (they are opaque to the merging logic). -/

/-- The success callbacks occurring in the source: no callback, or the
`function() { this.show(); }` closure passed by `show`. -/
inductive Callback
  | cbNone
  | cbShow
deriving Repr, DecidableEq

structure CC where
  defaultParams : OptionSet String
  params : OptionSet String
  collectionLoaded : Bool
  visible : Bool
  isSetup : Bool
  hasView : Bool
  hasSetup : Bool
  setupCount : Nat
  pending : List (OptionSet String × Callback)
  loadCount : Nat
deriving Repr, DecidableEq

/-- `construct(options)`: `defaultParams = _.extend({}, this.defaultParams,
options.defaultParams)` (the prototype declares none, hence `{}` merged
with the instance's), `params = _.extend({}, this.defaultParams)`,
`collectionLoaded = false`, nothing fetched yet. -/
def CC.construct (dp : OptionSet String) (hasView hasSetup : Bool) : CC :=
  let d := extendWith [] dp
  { defaultParams := d,
    params := extendWith [] d,
    collectionLoaded := false, visible := false, isSetup := false,
    hasView := hasView, hasSetup := hasSetup, setupCount := 0,
    pending := [], loadCount := 0 }

/-- `load(fetchParams, callback)` (lines 561–579): when `fetchParams` is
supplied, `params = _.extend({}, defaultParams, fetchParams)`; otherwise
the stored `params` are kept as they are.  A fetch with the current
params and the given success callback is then issued asynchronously. -/
def CC.load (cc : CC) (fetchParams : Option (OptionSet String)) (cb : Callback) : CC :=
  let newParams :=
    match fetchParams with
    | some fp => extendWith (extendWith [] cc.defaultParams) fp
    | none => cc.params
  { cc with params := newParams,
            pending := cc.pending ++ [(newParams, cb)],
            loadCount := cc.loadCount + 1 }

/-- `refresh(callback)`: `load(this.params, callback)`. -/
def CC.refresh (cc : CC) (cb : Callback) : CC :=
  cc.load (some cc.params) cb

/-- The inherited `Component.show()` tail for a root CollectionComponent:
the `component:shown` trigger reaches no listener; view/setup/visible act
as in `Child.showSelf`. -/
def CC.baseShow (cc : CC) : CC :=
  if cc.hasView && (!cc.isSetup && cc.hasSetup) then
    { cc with isSetup := true, setupCount := cc.setupCount + 1, visible := true }
  else
    { cc with visible := true }

/-- `CollectionComponent.show(options)` (lines 588–606): with
`options.params`, load with them and show on success; otherwise, if the
collection was never loaded, `refresh` and show on success; otherwise
defer to the inherited `show`. -/
def CC.show (cc : CC) (optParams : Option (OptionSet String)) : CC :=
  match optParams with
  | some p => cc.load (some p) Callback.cbShow
  | none =>
    if cc.collectionLoaded = false then cc.refresh Callback.cbShow
    else cc.baseShow

/-- One fetch success callback firing (the `success:` closure of `load`):
`collectionLoaded` is triggered and set before the stored callback runs;
a `cbShow` callback is `this.show()` with no arguments. -/
def CC.fireSuccess (cc : CC) : CC :=
  match cc.pending with
  | [] => cc
  | (_, cb) :: rest =>
    let cc1 := { cc with pending := rest, collectionLoaded := true }
    match cb with
    | Callback.cbNone => cc1
    | Callback.cbShow => cc1.show none

/-! ## Event bubbling and relay registration

Modelled from the spec: the `F.EventEmitter` collaborator is not under
src/; §6 of the spec gives its contract — `on/off/trigger` register,
remove (by function reference) and fire handlers held on the object
itself, while `listenTo/stopListening` are the parent's scoped
subscribe-to-other / unsubscribe-all-from-target.  Components are object
identities (`Nat`); each `bubble` call creates a fresh relay closure,
identified by a fresh `Nat` drawn from `nextId`. -/

/-- What the parent does when an object it relays for triggers an event:
re-trigger the same event with identical arguments (a bubble relay), or
run `_handleSubComponentShown` (the `listenTo` subscription installed by
`addComponent`). -/
inductive Reaction
  | reemit (evt : String) (args : List Nat)
  | handleShown (args : List Nat)
deriving Repr, DecidableEq

structure EvtSys where
  registry : OptionSet Nat
  onRegs : List (Nat × String × Nat)
  listenRegs : List (Nat × String)
  bubbled : List ((String × String) × Nat)
  nextId : Nat
deriving Repr, DecidableEq

/-- `_bubbledEvts[componentName][evt] = handler`: nested JS object
assignment, flattened to a pair key. -/
def setBub (l : List ((String × String) × Nat)) (key : String × String) (id : Nat) :
    List ((String × String) × Nat) :=
  if l.any (fun r => r.1 = key) then
    l.map (fun r => if r.1 = key then (key, id) else r)
  else l ++ [(key, id)]

/-- Read of `_bubbledEvts[componentName][evt]`. -/
def lupBub (l : List ((String × String) × Nat)) (key : String × String) : Option Nat :=
  (l.find? (fun r => r.1 = key)).map (fun r => r.2)

/-- `bubble(componentName, evt)` (lines 91–116): abort when the named
child does not exist; otherwise create a fresh relay closure, store it in
`_bubbledEvts` (overwriting a previous entry without unregistering it),
and register it on the child with `on`. -/
def bubble (s : EvtSys) (componentName evt : String) : EvtSys :=
  match lup s.registry componentName with
  | none => s
  | some objId =>
    { s with bubbled := setBub s.bubbled (componentName, evt) s.nextId,
             onRegs := s.onRegs ++ [(objId, evt, s.nextId)],
             nextId := s.nextId + 1 }

/-- `unbubble(componentName, evt)` (lines 126–136): warn and return when
no relay is stored; otherwise `off` the stored relay from the child.  (A
stored relay whose component was meanwhile removed from the registry is
not exercised by any claim and left as the identity.) -/
def unbubble (s : EvtSys) (componentName evt : String) : EvtSys :=
  match lupBub s.bubbled (componentName, evt) with
  | none => s
  | some id =>
    match lup s.registry componentName with
    | none => s
    | some objId =>
      { s with onRegs := s.onRegs.filter (fun r =>
          !(decide (r.1 = objId) && decide (r.2.1 = evt) && decide (r.2.2 = id))) }

/-- The event-subscription effects of `addComponent` (lines 169, 192):
store the child in the registry and `listenTo` its `component:shown`. -/
def addComponentE (s : EvtSys) (objId : Nat) (componentName : String) : EvtSys :=
  { s with registry := setKey s.registry componentName objId,
           listenRegs := s.listenRegs ++ [(objId, "component:shown")] }

/-- `removeComponent(componentName)` (lines 204–215): when the name is
registered, `stopListening(component)` — dropping every `listenTo`
subscription to that object — and delete it from the registry. -/
def removeComponentE (s : EvtSys) (componentName : String) : EvtSys :=
  match lup s.registry componentName with
  | none => s
  | some objId =>
    { s with listenRegs := s.listenRegs.filter (fun r => !(decide (r.1 = objId))),
             registry := s.registry.filter (fun p => !(decide (p.1 = componentName))) }

/-- All parent handlers that fire when object `objId` triggers `evt` with
`args`: each matching `on`-registered bubble relay re-emits, each
matching `listenTo` subscription runs `_handleSubComponentShown`. -/
def reactions (s : EvtSys) (objId : Nat) (evt : String) (args : List Nat) : List Reaction :=
  (s.onRegs.filter (fun r => decide (r.1 = objId) && decide (r.2.1 = evt))).map
      (fun _ => Reaction.reemit evt args)
  ++ (s.listenRegs.filter (fun r => decide (r.1 = objId) && decide (r.2 = evt))).map
      (fun _ => Reaction.handleShown args)

/-- The bubble-relay re-emissions among a list of reactions. -/
def reemits (rs : List Reaction) : List Reaction :=
  rs.filter (fun r => match r with | Reaction.reemit _ _ => true | _ => false)

/-! ## Concrete instances used in counterexamples and witnesses -/

/-- A plain hidden child with no view and no hooks. -/
def plainChild (n : String) : Child :=
  { name := n, visible := false, isSetup := false, overlay := false,
    hasView := false, hasEl := false, hasSetup := false, hasTeardown := false,
    setupCount := 0, teardownCount := 0 }

def c4s0 : ParentState := initialParent true

def c4s2 : ParentState := addComponent (addComponent c4s0 (plainChild "a")) (plainChild "b")

def c4s3 : ParentState := childShow c4s2 "a" false

def c4s4 : ParentState := childShow c4s3 "b" true

def dpEx : OptionSet String := [("sort", "name"), ("page", "1")]

def ccEx0 : CC := CC.construct dpEx false false

def ccEx1 : CC := ccEx0.load (some [("sort", "date")]) Callback.cbNone

def ccEx2 : CC := ccEx1.load none Callback.cbNone

def lvlBase : OptionSet Nat := [("shared", 1), ("fromBase", 10)]

def lvlMid : OptionSet Nat := [("shared", 2), ("fromMid", 20)]

def lvlTop : OptionSet Nat := [("shared", 3), ("fromTop", 30)]

/-- A visible, set-up component with a view and both hooks defined. -/
def wSetupChild : Child :=
  { name := "w", visible := true, isSetup := true, overlay := false,
    hasView := true, hasEl := true, hasSetup := true, hasTeardown := true,
    setupCount := 1, teardownCount := 0 }

/-- A viewless component that nevertheless defines a `setup` hook. -/
def wNoViewChild : Child :=
  { plainChild "w" with hasSetup := true }

/-- A singly parent with two registered children, "a" visible. -/
def wSinglyParent : ParentState :=
  { singly := true,
    children := [{ plainChild "a" with visible := true }, plainChild "b"],
    currentSubComponent := none, parentVisible := false, parentIsSetup := false,
    parentHasView := false, parentHasSetup := false }

def e0 : EvtSys := { registry := [], onRegs := [], listenRegs := [], bubbled := [], nextId := 0 }

def e1 : EvtSys := addComponentE e0 1 "childX"

def e2 : EvtSys := bubble e1 "childX" "evtY"

def e4 : EvtSys := addComponentE (removeComponentE e2 "childX") 2 "other"

/-! ## Lemmas on option merging -/

theorem lup_setKey {α : Type} (os : OptionSet α) (k k' : String) (v : α) :
    lup (setKey os k v) k' = if k' = k then some v else lup os k' := by
  unfold setKey lup
  by_cases hk : os.any (fun p => p.1 = k) = true
  · simp only [hk, if_true, List.find?_map]
    by_cases hkk : k' = k
    · subst hkk
      have hpred : (fun p : String × α => decide (p.1 = k')) ∘
          (fun p => if p.1 = k' then (k', v) else p) =
          fun p : String × α => decide (p.1 = k') := by
        funext p
        by_cases hp : p.1 = k' <;> simp [hp]
      rw [hpred]
      obtain ⟨p₀, hp₀mem, hp₀⟩ := List.any_eq_true.mp hk
      have hsome : (os.find? (fun p => decide (p.1 = k'))).isSome := by
        rw [List.find?_isSome]
        exact ⟨p₀, hp₀mem, hp₀⟩
      obtain ⟨q₀, hq₀⟩ := Option.isSome_iff_exists.mp hsome
      have hq₀k : q₀.1 = k' := by simpa using List.find?_some hq₀
      simp [hq₀, hq₀k]
    · have hkk' : ¬ (k = k') := fun h => hkk (Eq.symm h)
      have hpred : (fun p : String × α => decide (p.1 = k')) ∘
          (fun p => if p.1 = k then (k, v) else p) =
          fun p : String × α => decide (p.1 = k') := by
        funext p
        by_cases hp : p.1 = k
        · have hp' : ¬ (p.1 = k') := fun h => hkk (h ▸ hp)
          simp [hp, hkk', hp']
        · simp [hp]
      rw [hpred]
      simp only [hkk, if_false]
      cases hfind : os.find? (fun p => decide (p.1 = k')) with
      | none => simp [hfind]
      | some q₀ =>
        have hq₀k : q₀.1 = k' := by simpa using List.find?_some hfind
        have hq₀ne : ¬ (q₀.1 = k) := fun h => hkk (hq₀k ▸ h)
        simp [hfind, hq₀ne]
  · simp only [hk, if_false, List.find?_append]
    have hnone : os.find? (fun p => decide (p.1 = k)) = none := by
      rw [List.find?_eq_none]
      intro x hx
      simp only [decide_eq_true_eq]
      intro hxk
      exact hk (List.any_eq_true.mpr ⟨x, hx, by simpa using hxk⟩)
    by_cases hkk : k' = k
    · subst hkk
      simp [hnone, List.find?]
    · have hkk' : ¬ (k = k') := fun h => hkk (Eq.symm h)
      have h1 : List.find? (fun p : String × α => decide (p.1 = k')) [(k, v)] = none := by
        simp [List.find?, hkk']
      simp [h1, hkk]

theorem lup_extendWith {α : Type} (src dest : OptionSet α) (k : String) :
    lup (extendWith dest src) k = (lupLast src k).or (lup dest k) := by
  induction src generalizing dest with
  | nil => simp [extendWith, lupLast]
  | cons p rest ih =>
    have hstep : extendWith dest (p :: rest) = extendWith (setKey dest p.1 p.2) rest := rfl
    rw [hstep, ih, lup_setKey]
    have hsingle : Option.map (fun q : String × α => q.2)
        (List.find? (fun q => decide (q.1 = k)) [p]) =
        (if k = p.1 then some p.2 else none) := by
      by_cases hp : p.1 = k
      · rw [List.find?_cons_of_pos _ (by simpa using hp), if_pos hp.symm]
        rfl
      · rw [List.find?_cons_of_neg _ (by simpa using hp),
          if_neg (fun h => hp (Eq.symm h))]
        rfl
    have hlast : lupLast (p :: rest) k =
        (lupLast rest k).or (if k = p.1 then some p.2 else none) := by
      unfold lupLast
      rw [List.reverse_cons, List.find?_append, Option.map_or', hsingle]
    rw [hlast]
    cases hrest : lupLast rest k with
    | none =>
      by_cases hkp : k = p.1 <;> simp [hkp]
    | some w => simp

theorem keysNodup_setKey {α : Type} (os : OptionSet α) (k : String) (v : α)
    (h : KeysNodup os) : KeysNodup (setKey os k v) := by
  unfold setKey KeysNodup at *
  by_cases hk : os.any (fun p => p.1 = k) = true
  · rw [if_pos hk]
    have hmap : (os.map (fun p => if p.1 = k then (k, v) else p)).map (fun p => p.1) =
        os.map (fun p => p.1) := by
      rw [List.map_map]
      apply List.map_congr_left
      intro p _
      by_cases hp : p.1 = k <;> simp [hp]
    rw [hmap]
    exact h
  · rw [if_neg hk]
    have hmap : (os ++ [(k, v)]).map (fun p => p.1) =
        (os.map (fun p => p.1)).concat k := by
      simp [List.concat_eq_append]
    rw [hmap]
    refine List.Nodup.concat ?_ h
    intro hmem
    obtain ⟨p, hp, hpk⟩ := List.mem_map.mp hmem
    exact hk (List.any_eq_true.mpr ⟨p, hp, by simpa using hpk⟩)

theorem keysNodup_extendWith {α : Type} (src dest : OptionSet α)
    (h : KeysNodup dest) : KeysNodup (extendWith dest src) := by
  induction src generalizing dest with
  | nil => exact h
  | cons p rest ih => exact ih _ (keysNodup_setKey _ _ _ h)

theorem keysNodup_nil {α : Type} : KeysNodup ([] : OptionSet α) := by
  simp [KeysNodup]

theorem lupLast_eq_lup {α : Type} (os : OptionSet α) (k : String)
    (h : KeysNodup os) : lupLast os k = lup os k := by
  induction os with
  | nil => rfl
  | cons p rest ih =>
    unfold KeysNodup at h
    simp only [List.map_cons, List.nodup_cons] at h
    obtain ⟨hnot, hrest⟩ := h
    unfold lupLast lup
    rw [List.reverse_cons, List.find?_append]
    by_cases hp : p.1 = k
    · have hnone : rest.reverse.find? (fun q => decide (q.1 = k)) = none := by
        rw [List.find?_eq_none]
        intro x hx
        simp only [decide_eq_true_eq]
        intro hxk
        exact hnot (List.mem_map.mpr ⟨x, List.mem_reverse.mp hx, by rw [hxk, ← hp]⟩)
      simp [hnone, List.find?, hp]
    · have h1 : List.find? (fun q : String × α => decide (q.1 = k)) [p] = none := by
        simp [List.find?, hp]
      simp only [h1, Option.or_none]
      rw [show (List.find? (fun q : String × α => decide (q.1 = k)) (p :: rest)) =
        rest.find? (fun q => decide (q.1 = k)) from by simp [List.find?, hp]]
      exact ih hrest

theorem lup_mergeOptions_foldl {α : Type} (sets : List (OptionSet α))
    (d : OptionSet α) (k : String) :
    lup (sets.foldl extendWith d) k =
      ((sets.filterMap (fun s => lupLast s k)).getLast?).or (lup d k) := by
  induction sets generalizing d with
  | nil => simp
  | cons s rest ih =>
    rw [List.foldl_cons, ih, lup_extendWith]
    cases hs : lupLast s k with
    | none => simp [List.filterMap_cons, hs]
    | some v =>
      simp only [List.filterMap_cons, hs]
      cases hrfm : rest.filterMap (fun s => lupLast s k) with
      | nil => simp
      | cons x xs =>
        have hne : (x :: xs) ≠ [] := by simp
        obtain ⟨w, hw⟩ := Option.isSome_iff_exists.mp (List.getLast?_isSome.mpr hne)
        simp [List.getLast?_cons_cons, hw]

theorem lup_mergeOptions {α : Type} (sets : List (OptionSet α)) (k : String) :
    lup (mergeOptions sets) k = (sets.filterMap (fun s => lupLast s k)).getLast? := by
  unfold mergeOptions
  rw [lup_mergeOptions_foldl]
  simp [lup]

/-! ## Lemmas on the component lifecycle model -/

theorem showSelf_name (c : Child) : c.showSelf.name = c.name := by
  unfold Child.showSelf
  split <;> rfl

theorem showSelf_visible (c : Child) : c.showSelf.visible = true := by
  unfold Child.showSelf
  split <;> rfl

theorem showSelf_overlay (c : Child) : c.showSelf.overlay = c.overlay := by
  unfold Child.showSelf
  split <;> rfl

theorem showSelf_hasView (c : Child) : c.showSelf.hasView = c.hasView := by
  unfold Child.showSelf
  split <;> rfl

theorem hideSelf_name (c : Child) : c.hideSelf.name = c.name := by
  unfold Child.hideSelf Child.hide
  split <;> rfl

theorem hideSelf_visible (c : Child) : c.hideSelf.visible = false := by
  unfold Child.hideSelf Child.hide
  split
  · next h => exact h
  · rfl

theorem find?_map_name {f : Child → Child} (hf : ∀ c, (f c).name = c.name)
    (cs : List Child) (m : String) :
    (cs.map f).find? (fun c => c.name = m) = (cs.find? (fun c => c.name = m)).map f := by
  rw [List.find?_map]
  have hpred : ((fun c : Child => decide (c.name = m)) ∘ f) =
      fun c : Child => decide (c.name = m) := by
    funext c
    simp [hf]
  rw [hpred]

theorem map_name_map {f : Child → Child} (hf : ∀ c, (f c).name = c.name) (cs : List Child) :
    (cs.map f).map (fun c => c.name) = cs.map (fun c => c.name) := by
  rw [List.map_map]
  apply List.map_congr_left
  intro c _
  exact hf c

theorem mapNamed_name_preserving (n : String) {f : Child → Child}
    (hf : ∀ c, (f c).name = c.name) (c : Child) :
    (if c.name = n then f c else c).name = c.name := by
  by_cases hc : c.name = n <;> simp [hc, hf]

theorem hideAllFun_name_preserving (except : List String) (c : Child) :
    (if except.any (fun e => e = c.name) then c else c.hideSelf).name = c.name := by
  by_cases hc : except.any (fun e => e = c.name) = true <;> simp [hc, hideSelf_name]

theorem find?_eq_of_mem_nodup {cs : List Child} {c : Child}
    (hmem : c ∈ cs) (hnd : (cs.map (fun d => d.name)).Nodup) :
    cs.find? (fun d => d.name = c.name) = some c := by
  induction cs with
  | nil => cases hmem
  | cons d rest ih =>
    simp only [List.map_cons, List.nodup_cons] at hnd
    obtain ⟨hdnot, hrest⟩ := hnd
    rcases List.mem_cons.mp hmem with h | h
    · subst h
      exact List.find?_cons_of_pos _ (by simp)
    · have hdc : ¬ (d.name = c.name) := by
        intro heq
        exact hdnot (by rw [heq]; exact List.mem_map.mpr ⟨c, h, rfl⟩)
      rw [List.find?_cons_of_neg _ (by simpa using hdc)]
      exact ih h hrest

theorem name_unique_of_find? {cs : List Child} {b : Child} {n : String}
    (hfind : cs.find? (fun c => c.name = n) = some b)
    (hnd : (cs.map (fun d => d.name)).Nodup) :
    ∀ d ∈ cs, d.name = n → d = b := by
  induction cs with
  | nil => intro d hd; cases hd
  | cons e rest ih =>
    simp only [List.map_cons, List.nodup_cons] at hnd
    obtain ⟨henot, hrest⟩ := hnd
    intro d hd hdn
    by_cases hen : e.name = n
    · rw [List.find?_cons_of_pos _ (by simpa using hen)] at hfind
      have heb : e = b := by injection hfind
      rcases List.mem_cons.mp hd with h | h
      · exact h.trans heb
      · exfalso
        exact henot (by rw [hen, ← hdn]; exact List.mem_map.mpr ⟨d, h, rfl⟩)
    · rw [List.find?_cons_of_neg _ (by simpa using hen)] at hfind
      rcases List.mem_cons.mp hd with h | h
      · exact absurd (h ▸ hdn) hen
      · exact ih hfind hrest d h hdn

theorem length_filter_map_le (p : Child → Bool) (f : Child → Child) (cs : List Child)
    (hpf : ∀ c ∈ cs, p (f c) = true → p c = true) :
    ((cs.map f).filter p).length ≤ (cs.filter p).length := by
  induction cs with
  | nil => simp
  | cons c rest ih =>
    have hc := hpf c (List.mem_cons_self c rest)
    have hrest : ∀ d ∈ rest, p (f d) = true → p d = true :=
      fun d hd => hpf d (List.mem_cons_of_mem _ hd)
    simp only [List.map_cons, List.filter_cons]
    by_cases h1 : p (f c) = true
    · have h2 : p c = true := hc h1
      simp only [h1, h2, if_true, List.length_cons]
      exact Nat.succ_le_succ (ih hrest)
    · rw [if_neg h1]
      by_cases h2 : p c = true
      · rw [if_pos h2]
        exact Nat.le_succ_of_le (ih hrest)
      · rw [if_neg h2]
        exact ih hrest

theorem length_filter_le_one (cs : List Child) (n : String) (p : Child → Bool)
    (hnd : (cs.map (fun c => c.name)).Nodup)
    (hp : ∀ c ∈ cs, p c = true → c.name = n) :
    (cs.filter p).length ≤ 1 := by
  induction cs with
  | nil => simp
  | cons c rest ih =>
    simp only [List.map_cons, List.nodup_cons] at hnd
    obtain ⟨hcnot, hrest⟩ := hnd
    by_cases h1 : p c = true
    · have hcn : c.name = n := hp c (List.mem_cons_self c rest) h1
      have hempty : rest.filter p = [] := by
        rw [List.filter_eq_nil_iff]
        intro d hd hpd
        have hdn : d.name = n := hp d (List.mem_cons_of_mem _ hd) hpd
        exact hcnot (List.mem_map.mpr ⟨d, hd, by rw [hdn, hcn]⟩)
      simp [List.filter_cons, h1, hempty]
    · simp only [List.filter_cons, h1, if_false]
      exact ih hrest (fun d hd => hp d (List.mem_cons_of_mem _ hd))

theorem showSelf_setupCount_le (n : Nat) (c : Child) :
    (Child.showSelf^[n] c).setupCount ≤
      c.setupCount + (if c.isSetup = true then 0 else 1) := by
  induction n generalizing c with
  | zero =>
    simp only [Function.iterate_zero, id]
    exact Nat.le_add_right _ _
  | succ m ih =>
    rw [Function.iterate_succ_apply]
    refine le_trans (ih c.showSelf) ?_
    unfold Child.showSelf
    by_cases hrun : (c.hasView && (!c.isSetup && c.hasSetup)) = true
    · have hnot : c.isSetup = false := by
        revert hrun
        cases c.isSetup <;> simp
      rw [if_pos hrun]
      simp [hnot]
    · rw [if_neg hrun]

/-- C5: across any number of `show()` calls with no intervening
teardown, `setup` runs at most once (`isSetup` gates re-invocation);
after a `hide()` that ran `teardown` and unset `isSetup`, a later
`show()` runs `setup` again. -/
theorem setup_at_most_once (c : Child) (n : Nat) :
    ((Child.showSelf^[n] c).setupCount ≤ c.setupCount + 1) ∧
    (c.visible = true → c.isSetup = true → c.hasTeardown = true →
      c.hasView = true → c.hasSetup = true →
      (c.hideSelf.isSetup = false ∧
        c.hideSelf.showSelf.setupCount = c.setupCount + 1)) := by
  constructor
  · refine le_trans (showSelf_setupCount_le n c) ?_
    by_cases h : c.isSetup = true <;> simp [h]
  · intro hvis hsetup htd hview hhs
    have hhide : c.hideSelf =
        { c with isSetup := false, teardownCount := c.teardownCount + 1, visible := false } := by
      unfold Child.hideSelf Child.hide
      rw [if_neg (by simp [hvis])]
      simp [hsetup, htd]
    constructor
    · rw [hhide]
    · rw [hhide]
      unfold Child.showSelf
      rw [if_pos (by simp [hview, hhs])]

/-- Witness for `setup_at_most_once` at a concrete component. -/
theorem setup_at_most_once_witness :
    wSetupChild.visible = true ∧ wSetupChild.isSetup = true ∧
    wSetupChild.hasTeardown = true ∧ wSetupChild.hasView = true ∧
    wSetupChild.hasSetup = true ∧
    ((Child.showSelf^[3] wSetupChild).setupCount ≤ wSetupChild.setupCount + 1) ∧
    (wSetupChild.hideSelf.isSetup = false ∧
      wSetupChild.hideSelf.showSelf.setupCount = wSetupChild.setupCount + 1) := by
  refine ⟨rfl, rfl, rfl, rfl, rfl, (setup_at_most_once wSetupChild 3).1, ?_⟩
  exact (setup_at_most_once wSetupChild 3).2 rfl rfl rfl rfl rfl

theorem childShow_eq_singly {s : ParentState} {b : Child}
    (hfind : s.children.find? (fun c => c.name = b.name) = some b)
    (hany : s.children.any (fun c => c.name = b.name) = true)
    (hcond : (s.singly && !b.overlay) = true) :
    childShow s b.name false =
      { s with
        children := mapNamed (s.children.map (fun c => if [b.name].any (fun e => e = c.name) then c else c.hideSelf)) b.name Child.showSelf,
        currentSubComponent := some b.name,
        parentVisible := true,
        parentIsSetup :=
          if s.parentHasView && (!s.parentIsSetup && s.parentHasSetup) then true
          else s.parentIsSetup } := by
  unfold childShow handleSubComponentShown hideAllSubComponents parentShowSelf
  rw [if_pos hany]
  rw [hfind]
  dsimp only
  rw [if_pos hcond]
  simp

theorem childShow_eq_nonSingly {s : ParentState} {b : Child}
    (hfind : s.children.find? (fun c => c.name = b.name) = some b)
    (hany : s.children.any (fun c => c.name = b.name) = true)
    (hcond : ¬ ((s.singly && !b.overlay) = true)) :
    childShow s b.name false =
      { s with
        children := mapNamed s.children b.name Child.showSelf,
        parentVisible := true,
        parentIsSetup :=
          if s.parentHasView && (!s.parentIsSetup && s.parentHasSetup) then true
          else s.parentIsSetup } := by
  unfold childShow handleSubComponentShown parentShowSelf
  rw [if_pos hany]
  rw [hfind]
  dsimp only
  rw [if_neg hcond]
  simp

/-- C1: in singly mode, a registered non-overlay child B shown while a
registered sibling A is visible ends with A hidden, B visible and
`currentSubComponent` pointing at B; a shown overlay-flagged child hides
no sibling. -/
theorem singly_show_hides_sibling (s : ParentState) (a b : Child)
    (ha : a ∈ s.children) (hb : b ∈ s.children)
    (hne : a.name ≠ b.name)
    (hnd : NamesNodup s)
    (hsingly : s.singly = true)
    (havis : a.visible = true) :
    (b.overlay = false →
      visibleOf (childShow s b.name false) a.name = some false ∧
      visibleOf (childShow s b.name false) b.name = some true ∧
      (childShow s b.name false).currentSubComponent = some b.name) ∧
    (b.overlay = true →
      visibleOf (childShow s b.name false) a.name = some true) := by
  have hfind : s.children.find? (fun c => c.name = b.name) = some b :=
    find?_eq_of_mem_nodup hb hnd
  have hany : s.children.any (fun c => c.name = b.name) = true :=
    List.any_eq_true.mpr ⟨b, hb, by simp⟩
  have hfa : s.children.find? (fun c => c.name = a.name) = some a :=
    find?_eq_of_mem_nodup ha hnd
  have hba : ¬ (b.name = a.name) := fun h => hne (Eq.symm h)
  have hgpres : ∀ c : Child,
      ((fun c : Child => if c.name = b.name then c.showSelf else c) c).name = c.name :=
    mapNamed_name_preserving b.name (fun c => showSelf_name c)
  have hhpres : ∀ c : Child,
      ((fun c : Child => if [b.name].any (fun e => e = c.name) then c else c.hideSelf) c).name
        = c.name :=
    hideAllFun_name_preserving [b.name]
  constructor
  · intro hbo
    have hcond : (s.singly && !b.overlay) = true := by rw [hsingly, hbo]; rfl
    rw [childShow_eq_singly hfind hany hcond]
    refine ⟨?_, ?_, rfl⟩
    · unfold visibleOf mapNamed
      rw [find?_map_name hgpres, find?_map_name hhpres, hfa]
      simp [hba, hideSelf_name, hne, hideSelf_visible]
    · unfold visibleOf mapNamed
      rw [find?_map_name hgpres, find?_map_name hhpres, hfind]
      simp [showSelf_visible]
  · intro hbo
    have hcond : ¬ ((s.singly && !b.overlay) = true) := by
      rw [hsingly, hbo]
      simp
    rw [childShow_eq_nonSingly hfind hany hcond]
    unfold visibleOf mapNamed
    rw [find?_map_name hgpres, hfa]
    simp [hne, havis]

/-- Witness for `singly_show_hides_sibling` at a concrete two-child
singly parent. -/
theorem singly_show_hides_sibling_witness :
    ({ plainChild "a" with visible := true } ∈ wSinglyParent.children) ∧
    (plainChild "b" ∈ wSinglyParent.children) ∧
    ({ plainChild "a" with visible := true } : Child).name ≠ (plainChild "b").name ∧
    NamesNodup wSinglyParent ∧
    wSinglyParent.singly = true ∧
    ({ plainChild "a" with visible := true } : Child).visible = true ∧
    (((plainChild "b").overlay = false →
      visibleOf (childShow wSinglyParent (plainChild "b").name false) ({ plainChild "a" with visible := true } : Child).name = some false ∧
      visibleOf (childShow wSinglyParent (plainChild "b").name false) (plainChild "b").name = some true ∧
      (childShow wSinglyParent (plainChild "b").name false).currentSubComponent = some (plainChild "b").name) ∧
    ((plainChild "b").overlay = true →
      visibleOf (childShow wSinglyParent (plainChild "b").name false) ({ plainChild "a" with visible := true } : Child).name = some true)) := by
  refine ⟨by decide, by decide, by decide, by unfold NamesNodup; decide, rfl, rfl, ?_⟩
  exact singly_show_hides_sibling wSinglyParent _ _ (by decide) (by decide) (by decide)
    (by unfold NamesNodup; decide) rfl rfl

theorem any_eq_false_of_find?_none {cs : List Child} {n : String}
    (h : cs.find? (fun c => c.name = n) = none) :
    cs.any (fun c => c.name = n) = false := by
  cases hb : cs.any (fun c => c.name = n) with
  | false => rfl
  | true =>
    obtain ⟨x, hx, hpx⟩ := List.any_eq_true.mp hb
    rw [List.find?_eq_none] at h
    exact absurd hpx (h x hx)

theorem childShow_not_found {s : ParentState} {n : String} (silent : Bool)
    (h : s.children.any (fun c => c.name = n) = false) :
    childShow s n silent = s := by
  unfold childShow
  rw [if_neg (by simp [h])]

theorem singly_handle (s : ParentState) (n : String) :
    (handleSubComponentShown s n).singly = s.singly := by
  unfold handleSubComponentShown
  cases hf : s.children.find? (fun c => c.name = n) with
  | none => rfl
  | some b =>
    dsimp only
    split <;> rfl

theorem singly_childShow (s : ParentState) (n : String) (silent : Bool) :
    (childShow s n silent).singly = s.singly := by
  unfold childShow
  split
  · cases silent
    · exact singly_handle s n
    · rfl
  · rfl

theorem singly_childHide (s : ParentState) (n : String) :
    (childHide s n).singly = s.singly := rfl

theorem singly_addComponent (s : ParentState) (c : Child) :
    (addComponent s c).singly = s.singly := by
  unfold addComponent
  split
  · exact singly_childShow _ _ _
  · rfl

theorem names_handle (s : ParentState) (n : String) :
    (handleSubComponentShown s n).children.map (fun c => c.name) =
      s.children.map (fun c => c.name) := by
  unfold handleSubComponentShown
  cases hf : s.children.find? (fun c => c.name = n) with
  | none => rfl
  | some b =>
    dsimp only
    split
    · exact map_name_map (hideAllFun_name_preserving [n]) _
    · rfl

theorem names_childShow (s : ParentState) (n : String) (silent : Bool) :
    (childShow s n silent).children.map (fun c => c.name) =
      s.children.map (fun c => c.name) := by
  unfold childShow
  split
  · show (mapNamed (if silent then s else handleSubComponentShown s n).children n
      Child.showSelf).map (fun c => c.name) = _
    unfold mapNamed
    rw [map_name_map (mapNamed_name_preserving n (fun c => showSelf_name c))]
    cases silent
    · exact names_handle s n
    · rfl
  · rfl

theorem names_childHide (s : ParentState) (n : String) :
    (childHide s n).children.map (fun c => c.name) =
      s.children.map (fun c => c.name) := by
  show (mapNamed s.children n Child.hideSelf).map (fun c => c.name) = _
  unfold mapNamed
  exact map_name_map (mapNamed_name_preserving n (fun c => hideSelf_name c)) _

theorem names_nodup_registryInsert {cs : List Child} {c : Child}
    (hnd : (cs.map (fun d => d.name)).Nodup) :
    ((registryInsert cs c).map (fun d => d.name)).Nodup := by
  unfold registryInsert
  by_cases hk : (cs.any (fun d => d.name = c.name)) = true
  · rw [if_pos hk]
    have hmap : (cs.map (fun d => if d.name = c.name then c else d)).map (fun d => d.name) =
        cs.map (fun d => d.name) := by
      apply map_name_map
      intro d
      by_cases hd : d.name = c.name <;> simp [hd]
    rw [hmap]
    exact hnd
  · rw [if_neg hk]
    have hmap : ((cs ++ [c]).map (fun d => d.name)) =
        (cs.map (fun d => d.name)).concat c.name := by
      simp [List.concat_eq_append]
    rw [hmap]
    refine List.Nodup.concat ?_ hnd
    intro hmem
    obtain ⟨d, hd, hdn⟩ := List.mem_map.mp hmem
    exact hk (List.any_eq_true.mpr ⟨d, hd, by simpa using hdn⟩)

theorem addComponent_eq_of_hidden {s : ParentState} {c : Child} (hv : c.visible = false) :
    addComponent s c = { s with children := registryInsert s.children c } := by
  unfold addComponent
  rw [if_neg (by simp [hv])]

theorem names_nodup_addComponent {s : ParentState} {c : Child} (hv : c.visible = false)
    (hnd : NamesNodup s) : NamesNodup (addComponent s c) := by
  rw [addComponent_eq_of_hidden hv]
  exact names_nodup_registryInsert hnd

theorem count_registryInsert_le (cs : List Child) (c : Child) (p : Child → Bool)
    (hpc : p c = false) :
    ((registryInsert cs c).filter p).length ≤ (cs.filter p).length := by
  unfold registryInsert
  by_cases hk : (cs.any (fun d => d.name = c.name)) = true
  · rw [if_pos hk]
    apply length_filter_map_le
    intro d _ hpd
    by_cases hdc : d.name = c.name
    · rw [if_pos hdc] at hpd
      rw [hpd] at hpc
      cases hpc
    · rwa [if_neg hdc] at hpd
  · rw [if_neg hk, List.filter_append]
    simp [List.filter, hpc]

theorem count_childHide_le (s : ParentState) (n : String)
    (hc : countVisibleNonOverlay s ≤ 1) :
    countVisibleNonOverlay (childHide s n) ≤ 1 := by
  unfold countVisibleNonOverlay at *
  show ((mapNamed s.children n Child.hideSelf).filter _).length ≤ 1
  unfold mapNamed
  refine le_trans (length_filter_map_le _ _ _ ?_) hc
  intro d _ hpd
  by_cases hdn : d.name = n
  · rw [if_pos hdn] at hpd
    rw [hideSelf_visible] at hpd
    cases hpd
  · rwa [if_neg hdn] at hpd

theorem count_childShow_le (s : ParentState) (n : String)
    (hnd : NamesNodup s) (hsingly : s.singly = true)
    (hc : countVisibleNonOverlay s ≤ 1) :
    countVisibleNonOverlay (childShow s n false) ≤ 1 := by
  cases hf : s.children.find? (fun c => c.name = n) with
  | none =>
    rw [childShow_not_found false (any_eq_false_of_find?_none hf)]
    exact hc
  | some b =>
    have hbn : b.name = n := by simpa using List.find?_some hf
    subst hbn
    have hmem : b ∈ s.children := List.mem_of_find?_eq_some hf
    have hany : s.children.any (fun c => c.name = b.name) = true :=
      List.any_eq_true.mpr ⟨b, hmem, by simp⟩
    by_cases hbo : b.overlay = true
    · have hcond : ¬ ((s.singly && !b.overlay) = true) := by
        rw [hsingly, hbo]
        simp
      rw [childShow_eq_nonSingly hf hany hcond]
      unfold countVisibleNonOverlay at *
      show ((mapNamed s.children b.name Child.showSelf).filter _).length ≤ 1
      unfold mapNamed
      refine le_trans (length_filter_map_le _ _ _ ?_) hc
      intro d hd hpd
      by_cases hdb : d.name = b.name
      · have hdbe : d = b := name_unique_of_find? hf hnd d hd hdb
        rw [if_pos hdb, hdbe] at hpd
        simp [showSelf_overlay, hbo] at hpd
      · rwa [if_neg hdb] at hpd
    · have hbo' : b.overlay = false := by
        revert hbo
        cases b.overlay <;> simp
      have hcond : (s.singly && !b.overlay) = true := by
        rw [hsingly, hbo']
        rfl
      rw [childShow_eq_singly hf hany hcond]
      unfold countVisibleNonOverlay
      show (((s.children.map _).map _).filter _).length ≤ 1
      apply length_filter_le_one _ b.name
      · rw [map_name_map (mapNamed_name_preserving b.name (fun c => showSelf_name c)),
          map_name_map (hideAllFun_name_preserving [b.name])]
        exact hnd
      · intro d hd hpd
        obtain ⟨e, he, rfl⟩ := List.mem_map.mp hd
        obtain ⟨d0, hd0, rfl⟩ := List.mem_map.mp he
        by_cases hdb : d0.name = b.name
        · rw [mapNamed_name_preserving b.name (fun c => showSelf_name c),
            hideAllFun_name_preserving [b.name]]
          exact hdb
        · have hbnd : ([b.name].any (fun e => e = d0.name)) = false := by
            simp only [List.any_cons, List.any_nil, Bool.or_false]
            simpa using fun hq => hdb (Eq.symm hq)
          rw [hbnd] at hpd
          simp only [Bool.false_eq_true, if_false] at hpd
          have hgskip : ((d0.hideSelf).name = b.name) = False := by
            rw [hideSelf_name]
            simp [hdb]
          rw [if_neg (by rw [hideSelf_name]; exact hdb)] at hpd
          rw [hideSelf_visible] at hpd
          cases hpd

theorem count_addComponent_le (s : ParentState) (c : Child) (hv : c.visible = false)
    (hc : countVisibleNonOverlay s ≤ 1) :
    countVisibleNonOverlay (addComponent s c) ≤ 1 := by
  rw [addComponent_eq_of_hidden hv]
  unfold countVisibleNonOverlay at *
  refine le_trans (count_registryInsert_le s.children c _ ?_) hc
  rw [hv]
  rfl

/-- C4 (counterexample): with `show({silent: true})` among the allowed
interleavings (also reachable through `addComponent` of a child whose
`visible` option is set), a singly parent reaches a state with two
visible non-overlay children. -/
theorem singly_invariant_counterexample :
    Reachable c4s0 c4s4 ∧ c4s4.singly = true ∧ countVisibleNonOverlay c4s4 = 2 := by
  refine ⟨?_, by decide, by decide⟩
  have h1 : Reachable c4s0 (addComponent c4s0 (plainChild "a")) :=
    Reachable.step Reachable.refl (Step.addStep _ _)
  have h2 : Reachable c4s0 c4s2 := Reachable.step h1 (Step.addStep _ _)
  have h3 : Reachable c4s0 c4s3 := Reachable.step h2 (Step.showStep _ "a" false)
  exact Reachable.step h3 (Step.showStep _ "b" true)

/-- C4 (amended): in singly mode, at most one non-overlay child is
visible in every state reachable by non-silent `show`, `hide`, and
`addComponent` of children that are hidden when added; overlay children
are exempt.  (A silent show — directly, or through `addComponent` of a
child whose `visible` option is already set — can defeat the bound, as
`singly_invariant_counterexample` shows.) -/
theorem singly_invariant (s : ParentState)
    (h : TameReachable (initialParent true) s) :
    countVisibleNonOverlay s ≤ 1 := by
  have hstrong : ∀ t, TameReachable (initialParent true) t →
      NamesNodup t ∧ t.singly = true ∧ countVisibleNonOverlay t ≤ 1 := by
    intro t ht
    induction ht with
    | refl =>
      refine ⟨by simp [NamesNodup, initialParent], rfl, ?_⟩
      simp [countVisibleNonOverlay, initialParent]
    | @step s1 t1 hr hstep ih =>
      obtain ⟨ihnd, ihsingly, ihc⟩ := ih
      cases hstep with
      | showStep n =>
        refine ⟨?_, ?_, count_childShow_le s1 n ihnd ihsingly ihc⟩
        · unfold NamesNodup at *
          rw [names_childShow]
          exact ihnd
        · rw [singly_childShow]
          exact ihsingly
      | hideStep n =>
        refine ⟨?_, ?_, count_childHide_le s1 n ihc⟩
        · unfold NamesNodup at *
          rw [names_childHide]
          exact ihnd
        · rw [singly_childHide]
          exact ihsingly
      | addStep c hcv =>
        refine ⟨names_nodup_addComponent hcv ihnd, ?_, count_addComponent_le s1 c hcv ihc⟩
        rw [singly_addComponent]
        exact ihsingly
  exact (hstrong s h).2.2

/-- Witness for `singly_invariant`: a concrete restricted run — add two
hidden children, show each in turn non-silently — stays within the
bound. -/
theorem singly_invariant_witness :
    TameReachable (initialParent true) c4s3 ∧ countVisibleNonOverlay c4s3 ≤ 1 := by
  have h1 : TameReachable (initialParent true) (addComponent c4s0 (plainChild "a")) :=
    TameReachable.step TameReachable.refl (TameStep.addStep _ _ rfl)
  have h2 : TameReachable (initialParent true) c4s2 :=
    TameReachable.step h1 (TameStep.addStep _ _ rfl)
  have h3 : TameReachable (initialParent true) c4s3 :=
    TameReachable.step h2 (TameStep.showStep _ "a")
  exact ⟨h3, singly_invariant c4s3 h3⟩

/-- C9: `hide()` on a non-visible component returns the falsy sentinel
(`ret = none`), emits no `component:hidden` event and leaves the state
unchanged, and that sentinel is returned exactly when the component is
already hidden. -/
theorem hide_on_hidden_is_noop (c : Child) (silent : Bool) :
    ((c.hide silent).ret = none ↔ c.visible = false) ∧
    (c.visible = false →
      (c.hide silent).state = c ∧ (c.hide silent).emittedHidden = false) := by
  unfold Child.hide
  by_cases h : c.visible = false
  · rw [if_pos h]
    exact ⟨by simp [h], fun _ => ⟨rfl, rfl⟩⟩
  · rw [if_neg h]
    refine ⟨by simp [h], fun hf => absurd hf h⟩

/-- Witness for `hide_on_hidden_is_noop` at a concrete hidden component. -/
theorem hide_on_hidden_is_noop_witness :
    ((plainChild "w").visible = false) ∧
    (((plainChild "w").hide false).ret = none ↔ (plainChild "w").visible = false) ∧
    (((plainChild "w").hide false).state = plainChild "w" ∧
      ((plainChild "w").hide false).emittedHidden = false) := by
  refine ⟨rfl, (hide_on_hidden_is_noop (plainChild "w") false).1, ?_⟩
  exact (hide_on_hidden_is_noop (plainChild "w") false).2 rfl

/-- C10: a component with no view never runs `setup` from `show()`, no
matter how often `show()` is called, and its `isSetup` flag never
changes (in particular it stays `false` when initially unset). -/
theorem no_view_never_setup (c : Child) (n : Nat) (hview : c.hasView = false) :
    (Child.showSelf^[n] c).isSetup = c.isSetup ∧
    (Child.showSelf^[n] c).setupCount = c.setupCount := by
  induction n generalizing c with
  | zero => simp
  | succ m ih =>
    rw [Function.iterate_succ_apply]
    have hshow : c.showSelf = { c with visible := true } := by
      unfold Child.showSelf
      rw [if_neg (by simp [hview])]
    rw [hshow]
    exact ih _ hview

theorem baseShow_fields (cc : CC) :
    (CC.baseShow cc).visible = true ∧ (CC.baseShow cc).loadCount = cc.loadCount ∧
    (CC.baseShow cc).pending = cc.pending ∧
    (CC.baseShow cc).collectionLoaded = cc.collectionLoaded := by
  unfold CC.baseShow
  split <;> exact ⟨rfl, rfl, rfl, rfl⟩

/-- C2: a CollectionComponent that has never completed a load, shown with
no params option, issues exactly one fetch (a refresh with the stored
params); `collectionLoaded` and `visible` remain false until the fetch
success callback fires, and once it does, `collectionLoaded` is true,
the component is visible, and no further load was issued. -/
theorem first_show_defers_until_loaded (dp : OptionSet String) (hasView hasSetup : Bool) :
    let cc0 := CC.construct dp hasView hasSetup
    let s1 := cc0.show none
    let s2 := s1.fireSuccess
    s1.loadCount = 1 ∧
    s1.pending = [(s1.params, Callback.cbShow)] ∧
    (∀ k, lup s1.params k = lup cc0.params k) ∧
    s1.collectionLoaded = false ∧
    s1.visible = false ∧
    s2.collectionLoaded = true ∧
    s2.visible = true ∧
    s2.loadCount = 1 ∧
    s2.pending = [] := by
  intro cc0 s1 s2
  have hmid : ∀ k, lup s1.params k = lup cc0.params k := by
    intro k
    have h1 : lup s1.params k = (lupLast cc0.params k).or (lup cc0.params k) :=
      lup_extendWith cc0.params cc0.params k
    rw [h1, lupLast_eq_lup cc0.params k (keysNodup_extendWith _ _ keysNodup_nil)]
    exact Option.or_self
  have hs2 : s2 = CC.baseShow { s1 with pending := [], collectionLoaded := true } := rfl
  obtain ⟨hv, hl, hp, hcl⟩ := baseShow_fields { s1 with pending := [], collectionLoaded := true }
  refine ⟨rfl, rfl, hmid, rfl, rfl, ?_, ?_, ?_, ?_⟩
  · rw [hs2, hcl]
  · rw [hs2, hv]
  · rw [hs2, hl]
    rfl
  · rw [hs2, hp]

/-- C3 (counterexample): after `load({sort:'date'})`, a further `load()`
with no fetchParams leaves `params` unchanged — `sort` stays `"date"` —
whereas the claim's `merge(defaultParams, {})` would give
`sort = "name"`. -/
theorem load_no_params_keeps_params_counterexample :
    lup ccEx2.params "sort" = some "date" ∧
    lup (extendWith (extendWith [] ccEx2.defaultParams) []) "sort" = some "name" ∧
    lup ccEx2.params "sort" ≠ lup (extendWith (extendWith [] ccEx2.defaultParams) []) "sort" := by
  refine ⟨rfl, rfl, ?_⟩
  decide

/-- C3 (amended): a `load` call with fetchParams supplied stores
`merge(defaultParams, fetchParams)` — a supplied key takes the supplied
value, every other default key keeps its default — in particular
`load({sort:'date'})` under defaults `{sort:'name', page:'1'}` stores
`{sort:'date', page:'1'}`; a `load` call with no fetchParams leaves the
stored params unchanged. -/
theorem load_params_merge (cc : CC) (fp : OptionSet String) (cb : Callback) :
    (cc.load (some fp) cb).params = extendWith (extendWith [] cc.defaultParams) fp ∧
    (∀ k, lup (cc.load (some fp) cb).params k =
      (lupLast fp k).or (lupLast cc.defaultParams k)) ∧
    (cc.load none cb).params = cc.params ∧
    lup ccEx1.params "sort" = some "date" ∧
    lup ccEx1.params "page" = some "1" := by
  refine ⟨rfl, ?_, rfl, rfl, rfl⟩
  intro k
  have h1 : lup (extendWith (extendWith [] cc.defaultParams) fp) k =
      (lupLast fp k).or (lup (extendWith [] cc.defaultParams) k) :=
    lup_extendWith fp (extendWith [] cc.defaultParams) k
  have h2 : lup (extendWith [] cc.defaultParams) k =
      (lupLast cc.defaultParams k).or (lup ([] : OptionSet String) k) :=
    lup_extendWith cc.defaultParams [] k
  show lup (extendWith (extendWith [] cc.defaultParams) fp) k = _
  rw [h1, h2]
  rw [show lup ([] : OptionSet String) k = none from rfl, Option.or_none]

/-- C6: folding a base-to-derived hierarchy of option declarations with
`mergeOptions` gives every key the value of the most-derived level that
declares it (so a key redeclared at several levels takes the
most-derived value, and a key declared at exactly one level keeps that
level's value), as the three-level example shows concretely. -/
theorem mergeOptions_most_derived_wins :
    (∀ (α : Type) (sets : List (OptionSet α)) (k : String),
      lup (mergeOptions sets) k = (sets.filterMap (fun s => lupLast s k)).getLast?) ∧
    lup (mergeOptions [lvlBase, lvlMid, lvlTop]) "shared" = some 3 ∧
    lup (mergeOptions [lvlBase, lvlMid, lvlTop]) "fromBase" = some 10 ∧
    lup (mergeOptions [lvlBase, lvlMid, lvlTop]) "fromMid" = some 20 ∧
    lup (mergeOptions [lvlBase, lvlMid, lvlTop]) "fromTop" = some 30 := by
  exact ⟨fun α sets k => lup_mergeOptions sets k, rfl, rfl, rfl, rfl⟩

/-- Witness for `no_view_never_setup`: a viewless component that defines
a `setup` hook, shown five times, never runs it. -/
theorem no_view_never_setup_witness :
    wNoViewChild.hasView = false ∧
    ((Child.showSelf^[5] wNoViewChild).isSetup = wNoViewChild.isSetup ∧
      (Child.showSelf^[5] wNoViewChild).setupCount = wNoViewChild.setupCount) ∧
    wNoViewChild.isSetup = false ∧ wNoViewChild.setupCount = 0 := by
  exact ⟨rfl, no_view_never_setup wNoViewChild 5 rfl, rfl, rfl⟩

/-! ## Lemmas on event bubbling -/

theorem lupBub_setBub (l : List ((String × String) × Nat)) (key : String × String) (id : Nat) :
    lupBub (setBub l key id) key = some id := by
  unfold setBub lupBub
  by_cases hk : l.any (fun r => r.1 = key) = true
  · rw [if_pos hk, List.find?_map]
    have hpred : ((fun r : (String × String) × Nat => decide (r.1 = key)) ∘
        (fun r => if r.1 = key then (key, id) else r)) =
        fun r : (String × String) × Nat => decide (r.1 = key) := by
      funext r
      by_cases hr : r.1 = key <;> simp [hr]
    rw [hpred]
    obtain ⟨r₀, hmem, hr₀⟩ := List.any_eq_true.mp hk
    have hsome : (l.find? (fun r => decide (r.1 = key))).isSome := by
      rw [List.find?_isSome]
      exact ⟨r₀, hmem, hr₀⟩
    obtain ⟨q₀, hq₀⟩ := Option.isSome_iff_exists.mp hsome
    have hq₀k : q₀.1 = key := by simpa using List.find?_some hq₀
    simp [hq₀, hq₀k]
  · rw [if_neg hk, List.find?_append]
    have hnone : l.find? (fun r => decide (r.1 = key)) = none := by
      rw [List.find?_eq_none]
      intro x hx
      simp only [decide_eq_true_eq]
      intro hxk
      exact hk (List.any_eq_true.mpr ⟨x, hx, by simpa using hxk⟩)
    simp [hnone, List.find?]

theorem reemits_reactions (s : EvtSys) (objId : Nat) (evt : String) (args : List Nat) :
    reemits (reactions s objId evt args) =
      (s.onRegs.filter (fun r => decide (r.1 = objId) && decide (r.2.1 = evt))).map
        (fun _ => Reaction.reemit evt args) := by
  unfold reemits reactions
  rw [List.filter_append, List.filter_map, List.filter_map]
  have h1 : ((fun r : Reaction => match r with | Reaction.reemit _ _ => true | _ => false) ∘
      (fun _ : Nat × String × Nat => Reaction.reemit evt args)) = fun _ => true := rfl
  have h2 : ((fun r : Reaction => match r with | Reaction.reemit _ _ => true | _ => false) ∘
      (fun _ : Nat × String => Reaction.handleShown args)) = fun _ => false := rfl
  rw [h1, h2]
  have hT : (s.onRegs.filter (fun r => decide (r.1 = objId) && decide (r.2.1 = evt))).filter
      (fun _ => true) = s.onRegs.filter (fun r => decide (r.1 = objId) && decide (r.2.1 = evt)) :=
    List.filter_eq_self.mpr (fun a _ => rfl)
  have hF : (s.listenRegs.filter (fun r => decide (r.1 = objId) && decide (r.2 = evt))).filter
      (fun _ => false) = [] :=
    List.filter_eq_nil_iff.mpr (fun a _ => by simp)
  rw [hT, hF]
  simp

/-- C7: after `bubble('childX','evtY')`, a trigger of `evtY` on childX
makes the parent re-emit `evtY` with identical arguments (exactly once
when no relay for that child/event pair pre-existed); after the matching
`unbubble('childX','evtY')`, a further trigger re-emits nothing. -/
theorem bubble_relays_unbubble_stops (s : EvtSys) (childName evt : String)
    (objId : Nat) (args : List Nat)
    (hreg : lup s.registry childName = some objId)
    (hclean : s.onRegs.filter (fun r => decide (r.1 = objId) && decide (r.2.1 = evt)) = []) :
    reemits (reactions (bubble s childName evt) objId evt args) = [Reaction.reemit evt args] ∧
    reemits (reactions (unbubble (bubble s childName evt) childName evt) objId evt args)
      = [] := by
  have hb : bubble s childName evt =
      { s with bubbled := setBub s.bubbled (childName, evt) s.nextId,
               onRegs := s.onRegs ++ [(objId, evt, s.nextId)],
               nextId := s.nextId + 1 } := by
    unfold bubble
    rw [hreg]
  constructor
  · rw [hb, reemits_reactions]
    dsimp only
    rw [List.filter_append, hclean]
    simp
  · have hu : unbubble (bubble s childName evt) childName evt =
        { s with bubbled := setBub s.bubbled (childName, evt) s.nextId,
                 onRegs := (s.onRegs ++ [(objId, evt, s.nextId)]).filter (fun r =>
                   !(decide (r.1 = objId) && decide (r.2.1 = evt) &&
                     decide (r.2.2 = s.nextId))),
                 nextId := s.nextId + 1 } := by
      rw [hb]
      unfold unbubble
      dsimp only
      rw [lupBub_setBub]
      dsimp only
      rw [hreg]
    rw [hu, reemits_reactions]
    dsimp only
    rw [List.filter_filter, List.filter_append]
    have hA : s.onRegs.filter (fun r =>
        (decide (r.1 = objId) && decide (r.2.1 = evt)) &&
        !(decide (r.1 = objId) && decide (r.2.1 = evt) && decide (r.2.2 = s.nextId))) = [] := by
      rw [List.filter_eq_nil_iff]
      intro r hr
      have hnr := List.filter_eq_nil_iff.mp hclean r hr
      intro habs
      apply hnr
      have h1 := Bool.and_elim_left habs
      exact h1
    have hB : List.filter (fun r : Nat × String × Nat =>
        (decide (r.1 = objId) && decide (r.2.1 = evt)) &&
        !(decide (r.1 = objId) && decide (r.2.1 = evt) && decide (r.2.2 = s.nextId)))
        [(objId, evt, s.nextId)] = [] := by
      simp
    rw [hA, hB]
    rfl

/-- Witness for `bubble_relays_unbubble_stops` at a concrete parent with
one registered child and no pre-existing relays. -/
theorem bubble_relays_unbubble_stops_witness :
    lup e1.registry "childX" = some 1 ∧
    e1.onRegs.filter (fun r => decide (r.1 = 1) && decide (r.2.1 = "evtY")) = [] ∧
    reemits (reactions (bubble e1 "childX" "evtY") 1 "evtY" [3, 4])
      = [Reaction.reemit "evtY" [3, 4]] ∧
    reemits (reactions (unbubble (bubble e1 "childX" "evtY") "childX" "evtY") 1 "evtY" [3, 4])
      = [] := by
  refine ⟨rfl, rfl, ?_, ?_⟩
  · exact (bubble_relays_unbubble_stops e1 "childX" "evtY" 1 [3, 4] rfl rfl).1
  · exact (bubble_relays_unbubble_stops e1 "childX" "evtY" 1 [3, 4] rfl rfl).2

/-- C8 (counterexample): with a bubble relay registered before
`removeComponent('childX')` and a differently-named instance added
afterwards, a trigger on the removed instance (object 1) still fires the
parent's relay — the registration made with `on` is not removed by
`stopListening`. -/
theorem remove_retains_bubble_relay :
    reactions e4 1 "evtY" [5] = [Reaction.reemit "evtY" [5]] ∧
    e4.registry = [("other", 2)] := by
  constructor <;> rfl

/-- C8 (amended): `removeComponent(name)` removes every `listenTo`
subscription of the parent to the removed instance (none remains even
after `addComponent` of a differently-named instance), so the only
handlers that can still fire for the removed instance's triggers are
bubble relays that were registered on it with `on` and never
unbubbled. -/
theorem removeComponent_drops_subscriptions (s : EvtSys) (name : String) (objId : Nat)
    (hreg : lup s.registry name = some objId) :
    ((removeComponentE s name).listenRegs.filter (fun r => decide (r.1 = objId))) = [] ∧
    (∀ (objId2 : Nat) (name2 evt : String) (args : List Nat), objId2 ≠ objId →
      reactions (addComponentE (removeComponentE s name) objId2 name2) objId evt args =
        (s.onRegs.filter (fun r => decide (r.1 = objId) && decide (r.2.1 = evt))).map
          (fun _ => Reaction.reemit evt args)) := by
  have hrm : removeComponentE s name =
      { s with listenRegs := s.listenRegs.filter (fun r => !(decide (r.1 = objId))),
               registry := s.registry.filter (fun p => !(decide (p.1 = name))) } := by
    unfold removeComponentE
    rw [hreg]
  constructor
  · rw [hrm]
    dsimp only
    rw [List.filter_filter, List.filter_eq_nil_iff]
    intro r _
    simp
  · intro objId2 name2 evt args hne
    rw [hrm]
    unfold addComponentE reactions
    dsimp only
    have hlisten : List.filter (fun r : Nat × String => decide (r.1 = objId) && decide (r.2 = evt))
        ((s.listenRegs.filter (fun r => !(decide (r.1 = objId)))) ++ [(objId2, "component:shown")])
        = [] := by
      rw [List.filter_append, List.filter_filter]
      have hA : s.listenRegs.filter (fun r =>
          (decide (r.1 = objId) && decide (r.2 = evt)) && !(decide (r.1 = objId))) = [] := by
        rw [List.filter_eq_nil_iff]
        intro r _
        cases hcase : decide (r.1 = objId) <;> simp [hcase]
      have hB : List.filter (fun r : Nat × String => decide (r.1 = objId) && decide (r.2 = evt))
          [(objId2, "component:shown")] = [] := by
        simp [hne]
      rw [hA, hB]
      rfl
    rw [hlisten]
    simp

/-- Witness for `removeComponent_drops_subscriptions` at the concrete
event system with one bubbled relay. -/
theorem removeComponent_drops_subscriptions_witness :
    lup e2.registry "childX" = some 1 ∧ (2 : Nat) ≠ 1 ∧
    ((removeComponentE e2 "childX").listenRegs.filter (fun r => decide (r.1 = 1))) = [] ∧
    reactions (addComponentE (removeComponentE e2 "childX") 2 "other") 1 "evtY" [5] =
      (e2.onRegs.filter (fun r => decide (r.1 = 1) && decide (r.2.1 = "evtY"))).map
        (fun _ => Reaction.reemit "evtY" [5]) := by
  refine ⟨rfl, by decide, ?_, ?_⟩
  · exact (removeComponent_drops_subscriptions e2 "childX" 1 rfl).1
  · exact (removeComponent_drops_subscriptions e2 "childX" 1 rfl).2 2 "other" "evtY" [5]
      (by decide)

end FSpec
